import Mathlib

/-!
Shallow embedding of the generation-and-edit session core of the
virtual-food-generator repository.

Strings from the TypeScript source are modelled as `List Char`; the remote
Generation Client and Edit Client are parameters (functions returning
`Except`); the `uuidv4` identifier supply is modelled as a counter parameter
(the invariant of interest is uniqueness, not the algorithm); JavaScript
`Promise.all` returns results in input (index) order, which the sequential
list embedding reflects directly.

Sources embedded:
- src/types.ts                      (GeneratedImage, ImageStyle)
- src/App.tsx                       (handleGenerateImages, handleImageEdited)
- src/components/ImageEditorModal.tsx (handleEdit)
- src/services/geminiService.ts     (generateFoodImage, editFoodImage)
-/

/-- JavaScript `String.prototype.split(sep)` for a one-character separator,
on the `List Char` model of strings. -/
def splitChar (sep : Char) : List Char → List (List Char)
  | [] => [[]]
  | c :: rest =>
    if c = sep then [] :: splitChar sep rest
    else
      match splitChar sep rest with
      | [] => [[c]]
      | g :: gs => (c :: g) :: gs

/-- Whitespace characters recognised by the model of JavaScript
`String.prototype.trim` (space, tab, newline, carriage return, vertical
tab, form feed). -/
def isWsChar (c : Char) : Bool :=
  c = ' ' || c = '\t' || c = '\n' || c = '\r' || c = '\x0b' || c = '\x0c'

/-- Model of JavaScript `String.prototype.trim`: drop whitespace from both
ends. -/
def jsTrim (l : List Char) : List Char :=
  ((l.dropWhile isWsChar).reverse.dropWhile isWsChar).reverse

/-- The style enumeration of src/types.ts (`ImageStyle`). -/
inductive ImageStyle
  | RUSTIC_DARK
  | BRIGHT_MODERN
  | SOCIAL_MEDIA
deriving DecidableEq

/-- The aspect-ratio hints accepted by the Generation Client
(geminiService.ts: the union type of `aspectRatio`). -/
inductive Aspect
  | r1x1
  | r3x4
  | r4x3
  | r9x16
  | r16x9
deriving DecidableEq

/-- One entry of `GeneratedImage.editHistory` (src/types.ts). -/
structure EditEntry where
  prompt : List Char
  imageUrl : List Char
deriving DecidableEq

/-- The `GeneratedImage` record of src/types.ts.  `id` is a natural number
standing for the uuid string. -/
structure GeneratedImage where
  id : Nat
  dishName : List Char
  imageUrl : List Char
  originalPrompt : List Char
  editHistory : List EditEntry
deriving DecidableEq

/-- `inlineData` of one response part of the Edit Client
(geminiService.ts, editFoodImage). -/
structure InlineData where
  mimeType : List Char
  data : List Char
deriving DecidableEq

/-- One part of the Edit Client response content (geminiService.ts:
`response.candidates[0].content.parts`). -/
structure ContentPart where
  inlineData : Option InlineData
deriving DecidableEq

/-- The external Generation Client (`ai.models.generateImages`): given the
full prompt and an aspect ratio it yields the list of generated image
payloads (`imageBytes` strings), or a transport/service error. -/
def GenClient : Type := List Char → Aspect → Except (List Char) (List (List Char))

/-- The external Edit Client (`ai.models.generateContent`): given image
payload, its media type, and the edit prompt, it yields the response parts
or a transport/service error. -/
def EditClient : Type :=
  List Char → List Char → List Char → Except (List Char) (List ContentPart)

/-- geminiService.ts, generateFoodImage: the style-specific full prompt
built by the `switch (style)` statement. -/
def fullPromptFor (style : ImageStyle) (prompt : List Char) : List Char :=
  match style with
  | .RUSTIC_DARK =>
      ("High-end, professional food photography, rustic, dark lighting, moody, close-up, ").toList ++ prompt
  | .BRIGHT_MODERN =>
      ("High-end, professional food photography, bright, modern, clean background, vibrant colors, ").toList ++ prompt
  | .SOCIAL_MEDIA =>
      ("High-end, professional food photography, top-down view, social media ready, bright, clean, well-lit, ").toList ++ prompt

/-- geminiService.ts, generateFoodImage: the aspect ratio chosen by the
`switch (style)` statement. -/
def aspectFor (style : ImageStyle) : Aspect :=
  match style with
  | .RUSTIC_DARK => .r4x3
  | .BRIGHT_MODERN => .r16x9
  | .SOCIAL_MEDIA => .r1x1

/-- geminiService.ts, generateFoodImage: call the Generation Client with
the style-specific prompt and aspect ratio; return the first generated
image's bytes, or throw.  The inner `throw new Error("No image generated.")`
is caught by the function's own catch block, which rethrows every error with
the prefix `Failed to generate image: `. -/
def generateFoodImage (client : GenClient) (prompt : List Char)
    (style : ImageStyle) : Except (List Char) (List Char) :=
  match client (fullPromptFor style prompt) (aspectFor style) with
  | .error e => .error (("Failed to generate image: ").toList ++ e)
  | .ok imgs =>
    match imgs with
    | [] => .error (("Failed to generate image: ").toList ++ ("No image generated.").toList)
    | b :: _ => .ok b

/-- App.tsx, handleGenerateImages: the dish list
`menuText.split('\n').map((line) => line.trim()).filter(Boolean)`. -/
def dishesOf (menuText : List Char) : List (List Char) :=
  ((splitChar '\n' menuText).map jsTrim).filter (fun l => l ≠ [])

/-- App.tsx, handleGenerateImages: the data URI built for a generated
image, `data:image/jpeg;base64,` + bytes (the media type is the hardcoded
string `image/jpeg` whatever the service returned). -/
def jpegDataUri (b : List Char) : List Char :=
  ("data:image/jpeg;base64,").toList ++ b

/-- App.tsx, handleGenerateImages: the `setError` message produced by the
catch block of one dish's promise. -/
def genErrorMsg (dish : List Char) : List Char :=
  ("Failed to generate image for \"").toList ++ dish ++ ("\". Please try again.").toList

/-- App.tsx, handleGenerateImages: the `setError` message of the empty-menu
guard. -/
def emptyMenuMsg : List Char := ("Please enter your menu items.").toList

/-- The `GeneratedImage` record built for one successful dish
(App.tsx, handleGenerateImages, the object literal inside the promise). -/
def mkGeneratedImage (idNum : Nat) (dish b : List Char) : GeneratedImage :=
  { id := idNum
    dishName := dish
    imageUrl := jpegDataUri b
    originalPrompt := dish
    editHistory := [] }

/-- The per-dish results of `Promise.all(imagePromises)` in input order:
`some` for a fulfilled generation, `none` for a caught failure.  The uuid of
the i-th dish is modelled as `firstId + i` via the counter argument. -/
def generationResults (client : GenClient) (style : ImageStyle) :
    Nat → List (List Char) → List (Option GeneratedImage)
  | _, [] => []
  | i, dish :: rest =>
    (match generateFoodImage client dish style with
     | .ok b => some (mkGeneratedImage i dish b)
     | .error _ => none) :: generationResults client style (i + 1) rest

/-- The `setError` calls issued by the failing dish promises, one per failed
dish, in input order. -/
def generationErrorEvents (client : GenClient) (style : ImageStyle)
    (dishes : List (List Char)) : List (List Char) :=
  dishes.filterMap (fun d =>
    match generateFoodImage client d style with
    | .ok _ => none
    | .error _ => some (genErrorMsg d))

/-- The outcome of one `handleGenerateImages` invocation: the Generation
Client calls issued, the sequence of `setError` invocations, the final value
of the single `error` state (last write wins), and the session replacement
(`none` when `setGeneratedImages` was not reached past the guard). -/
structure GenOutcome where
  calls : List (List Char × Aspect)
  errorEvents : List (List Char)
  finalError : Option (List Char)
  sessionUpdate : Option (List GeneratedImage)
deriving DecidableEq

/-- App.tsx, handleGenerateImages.  The guard `if (!menuText.trim())` sets
the error message and returns before any network call; otherwise one
Generation Client call is issued per dish, the settled results are collected
in input order, and `setGeneratedImages(newImages)` replaces the session
with exactly the fulfilled results. -/
def handleGenerateImages (client : GenClient) (menuText : List Char)
    (style : ImageStyle) (firstId : Nat) : GenOutcome :=
  if jsTrim menuText = [] then
    { calls := []
      errorEvents := [emptyMenuMsg]
      finalError := some emptyMenuMsg
      sessionUpdate := none }
  else
    let ds := dishesOf menuText
    let events := generationErrorEvents client style ds
    { calls := ds.map (fun d => (fullPromptFor style d, aspectFor style))
      errorEvents := events
      finalError := events.getLast?
      sessionUpdate := some ((generationResults client style firstId ds).filterMap id) }

/-- The session an observer reads after the outcome is applied to the prior
session state (`setGeneratedImages` replaces it wholesale when reached). -/
def applyGenOutcome (prior : List GeneratedImage) (o : GenOutcome) :
    List GeneratedImage :=
  match o.sessionUpdate with
  | some s => s
  | none => prior

/-- The session replacement carried by an outcome, defaulting to `[]`. -/
def sessionOf (o : GenOutcome) : List GeneratedImage :=
  o.sessionUpdate.getD []

/-- The error messages actually reported by the UI at the end of a batch:
the single `error` state rendered as a (zero- or one-element) list. -/
def reportedErrors (o : GenOutcome) : List (List Char) :=
  o.finalError.toList

/-- The Encoding Utility's encoder: the data-URI template
`data:MIME;base64,DATA` used by ImageEditorModal.tsx, handleEdit
(`newImageUrl`) and, with the fixed media type `image/jpeg`, by App.tsx. -/
def encodeToDataUri (payload mediaType : List Char) : List Char :=
  ("data:").toList ++ mediaType ++ (";base64,").toList ++ payload

/-- The Encoding Utility's decoder, mirroring ImageEditorModal.tsx,
handleEdit lines 28-33: `base64Data = url.split(',')[1]`,
`mimeType = url.split(';')[0].split(':')[1]`, failing (`none`) when either
is absent or empty (JavaScript falsiness of `undefined` and `""`). -/
def decodeFromDataUri (uri : List Char) : Option (List Char × List Char) :=
  match (splitChar ',' uri).get? 1,
        (splitChar ':' ((splitChar ';' uri).headI)).get? 1 with
  | some d, some m => if d = [] ∨ m = [] then none else some (d, m)
  | _, _ => none

/-- The media-type header a data URI carries, extracted the way
handleEdit's `mimeType` expression does. -/
def mimeOfDataUri (uri : List Char) : Option (List Char) :=
  (splitChar ':' ((splitChar ';' uri).headI)).get? 1

/-- Valid payload for the Encoding Utility: a nonempty base64 body
(alphanumeric characters, `+`, `/`, `=`). -/
def isBase64Char (c : Char) : Bool :=
  c.isAlphanum || c = '+' || c = '/' || c = '='

/-- Validity of an encoder payload (§4.1's well-formed base64 body). -/
def validPayload (p : List Char) : Prop :=
  p ≠ [] ∧ ∀ c ∈ p, isBase64Char c = true

/-- Validity of a media type for the Encoding Utility: nonempty and free of
the three delimiter characters of the data-URI structure. -/
def validMediaType (m : List Char) : Prop :=
  m ≠ [] ∧ (',') ∉ m ∧ (';') ∉ m ∧ (':') ∉ m

/-- geminiService.ts, editFoodImage: the `No edited image returned by the
model.` error text. -/
def noEditedImageMsg : List Char := ("No edited image returned by the model.").toList

/-- geminiService.ts, editFoodImage: the prefix its catch block adds when
rethrowing any error. -/
def editFailMsg (e : List Char) : List Char := ("Failed to edit image: ").toList ++ e

/-- geminiService.ts, editFoodImage: the predicate of the `find` over the
response parts — the part has `inlineData` whose `mimeType` starts with
`image/`. -/
def isImagePart (pt : ContentPart) : Bool :=
  match pt.inlineData with
  | some idata => (("image/").toList).isPrefixOf idata.mimeType
  | none => false

/-- geminiService.ts, editFoodImage: call the Edit Client, find the first
response part whose inline data is an image, and return its `data`; throw
`No edited image returned by the model.` when no such part with truthy data
exists.  Both that throw and client errors pass through the function's catch
block, which rethrows with the `Failed to edit image: ` prefix.  Note the
result discards the returned part's own `mimeType`. -/
def editFoodImage (client : EditClient) (base64ImageData mimeType editPrompt : List Char) :
    Except (List Char) (List Char) :=
  match client base64ImageData mimeType editPrompt with
  | .error e => .error (editFailMsg e)
  | .ok parts =>
    match parts.find? isImagePart with
    | some pt =>
      match pt.inlineData with
      | some idata => if idata.data = [] then .error (editFailMsg noEditedImageMsg) else .ok idata.data
      | none => .error (editFailMsg noEditedImageMsg)
    | none => .error (editFailMsg noEditedImageMsg)

/-- ImageEditorModal.tsx, handleEdit: the `setError` message of the
empty-prompt guard. -/
def emptyEditPromptMsg : List Char := ("Please enter an edit prompt.").toList

/-- ImageEditorModal.tsx, handleEdit: the message of the throw taken when
the data-URI split yields no usable base64 body or media type. -/
def extractFailMsg : List Char := ("Could not extract image data for editing.").toList

/-- The outcome of one `handleEdit` invocation: the Edit Client calls issued
(payload, media type, prompt), the `setError` value, the updated image
passed to `onImageEdited` (when any), and the modal's
`currentEditedImageUrl` afterwards. -/
structure EditOutcome where
  calls : List (List Char × List Char × List Char)
  error : Option (List Char)
  updated : Option GeneratedImage
  newCurrentUrl : List Char
deriving DecidableEq

/-- ImageEditorModal.tsx, handleEdit.  Guard on the trimmed prompt; decode
the current image URL; on decode failure the thrown message is caught and
prefixed; otherwise call the Edit Client through `editFoodImage`; on
success build `newImageUrl` from the OLD media type and the new bytes,
construct the updated `GeneratedImage` (spread of `image` with `imageUrl`
replaced and one history entry appended), hand it to `onImageEdited`, and
move `currentEditedImageUrl` forward; on failure set the error and leave
everything else as it was. -/
def handleEdit (client : EditClient) (image : GeneratedImage)
    (currentEditedImageUrl editPrompt : List Char) : EditOutcome :=
  if jsTrim editPrompt = [] then
    { calls := []
      error := some emptyEditPromptMsg
      updated := none
      newCurrentUrl := currentEditedImageUrl }
  else
    match decodeFromDataUri currentEditedImageUrl with
    | none =>
      { calls := []
        error := some (editFailMsg extractFailMsg)
        updated := none
        newCurrentUrl := currentEditedImageUrl }
    | some (base64Data, mimeType) =>
      match editFoodImage client base64Data mimeType editPrompt with
      | .ok editedBase64 =>
        let newImageUrl := encodeToDataUri editedBase64 mimeType
        { calls := [(base64Data, mimeType, editPrompt)]
          error := none
          updated := some
            { image with
              imageUrl := newImageUrl
              editHistory := image.editHistory ++ [⟨editPrompt, newImageUrl⟩] }
          newCurrentUrl := newImageUrl }
      | .error e =>
        { calls := [(base64Data, mimeType, editPrompt)]
          error := some (editFailMsg e)
          updated := none
          newCurrentUrl := currentEditedImageUrl }

/-- App.tsx, handleImageEdited: replace the session entry whose `id`
matches the updated image. -/
def handleImageEdited (prevImages : List GeneratedImage)
    (updatedImage : GeneratedImage) : List GeneratedImage :=
  prevImages.map (fun img => if img.id = updatedImage.id then updatedImage else img)

/-- The session an observer reads after an edit outcome: `onImageEdited` is
invoked only on success, so a failed edit leaves the session untouched. -/
def applyEditOutcome (prevImages : List GeneratedImage) (o : EditOutcome) :
    List GeneratedImage :=
  match o.updated with
  | some u => handleImageEdited prevImages u
  | none => prevImages

/-- A Generation Client that fails every call (used to exercise the failure
paths on concrete inputs). -/
def failAllGenClient : GenClient := fun _ _ => .error (("boom").toList)

/-- A Generation Client that returns one fixed image for every call. -/
def okGenClient : GenClient := fun _ _ => .ok [("IMG").toList]

/-- A Generation Client that fails exactly the bright/modern prompt for the
dish `qqq` and returns one fixed image otherwise. -/
def failQqqGenClient : GenClient := fun p _ =>
  if p = fullPromptFor ImageStyle.BRIGHT_MODERN (("qqq").toList) then
    .error (("boom").toList)
  else .ok [("IMG").toList]

/-- An Edit Client returning one image part with media type `image/png` and
fixed data (used to show the part's media type is discarded). -/
def okEditClient : EditClient := fun _ _ _ =>
  .ok [{ inlineData := some { mimeType := ("image/png").toList, data := ("EDITED").toList } }]

/-- An Edit Client whose response contains no image part. -/
def noImageEditClient : EditClient := fun _ _ _ =>
  .ok [{ inlineData := none }]

/-- A sample tracked image used by concrete witnesses. -/
def sampleImage : GeneratedImage :=
  mkGeneratedImage 7 (("zzz").toList) (("QUJD").toList)

/-- Whether the generation of one dish succeeds (the promise fulfils rather
than hitting the catch block). -/
def genOk (client : GenClient) (style : ImageStyle) (dish : List Char) : Bool :=
  match generateFoodImage client dish style with
  | .ok _ => true
  | .error _ => false

theorem headI_mem_of_ne_nil {α : Type} [Inhabited α] {l : List α} (h : l ≠ []) :
    l.headI ∈ l := by
  cases l with
  | nil => exact absurd rfl h
  | cons a t => exact List.mem_cons_self a t

theorem splitChar_ne_nil (sep : Char) (l : List Char) : splitChar sep l ≠ [] := by
  induction l with
  | nil => simp [splitChar]
  | cons c rest ih =>
    simp only [splitChar]
    by_cases h : c = sep
    · simp [h]
    · rw [if_neg h]
      cases hr : splitChar sep rest with
      | nil => simp
      | cons g gs => simp

theorem splitChar_of_not_mem {sep : Char} {l : List Char} (h : sep ∉ l) :
    splitChar sep l = [l] := by
  induction l with
  | nil => rfl
  | cons c rest ih =>
    have hc : ¬ c = sep := fun e => h (e ▸ List.mem_cons_self c rest)
    have hr : sep ∉ rest := fun m => h (List.mem_cons_of_mem _ m)
    simp only [splitChar, if_neg hc, ih hr]

theorem splitChar_append {sep : Char} {a : List Char} (h : sep ∉ a) (b : List Char) :
    splitChar sep (a ++ sep :: b) = a :: splitChar sep b := by
  induction a with
  | nil => simp [splitChar]
  | cons c rest ih =>
    have hc : ¬ c = sep := fun e => h (e ▸ List.mem_cons_self c rest)
    have hr : sep ∉ rest := fun m => h (List.mem_cons_of_mem _ m)
    have ihr := ih hr
    rw [List.cons_append]
    simp only [splitChar, if_neg hc, List.append_eq]
    rw [ihr]

theorem mem_of_mem_splitChar {sep : Char} {l p : List Char}
    (hp : p ∈ splitChar sep l) {c : Char} (hc : c ∈ p) : c ∈ l := by
  induction l generalizing p with
  | nil =>
    simp only [splitChar, List.mem_singleton] at hp
    subst hp
    cases hc
  | cons d rest ih =>
    simp only [splitChar] at hp
    by_cases hd : d = sep
    · rw [if_pos hd] at hp
      rcases List.mem_cons.mp hp with h1 | h2
      · subst h1; cases hc
      · exact List.mem_cons_of_mem _ (ih h2 hc)
    · rw [if_neg hd] at hp
      cases hr : splitChar sep rest with
      | nil => exact absurd hr (splitChar_ne_nil sep rest)
      | cons g gs =>
        rw [hr] at hp
        rcases List.mem_cons.mp hp with h1 | h2
        · subst h1
          rcases List.mem_cons.mp hc with h3 | h4
          · subst h3; exact List.mem_cons_self _ _
          · refine List.mem_cons_of_mem _ (ih ?_ h4)
            rw [hr]; exact List.mem_cons_self g gs
        · refine List.mem_cons_of_mem _ (ih ?_ hc)
          rw [hr]; exact List.mem_cons_of_mem g h2

theorem not_sep_of_mem_splitChar {sep : Char} {l p : List Char}
    (hp : p ∈ splitChar sep l) : sep ∉ p := by
  induction l generalizing p with
  | nil =>
    simp only [splitChar, List.mem_singleton] at hp
    subst hp
    simp
  | cons d rest ih =>
    simp only [splitChar] at hp
    by_cases hd : d = sep
    · rw [if_pos hd] at hp
      rcases List.mem_cons.mp hp with h1 | h2
      · subst h1; simp
      · exact ih h2
    · rw [if_neg hd] at hp
      cases hr : splitChar sep rest with
      | nil => exact absurd hr (splitChar_ne_nil sep rest)
      | cons g gs =>
        rw [hr] at hp
        rcases List.mem_cons.mp hp with h1 | h2
        · subst h1
          intro hmem
          rcases List.mem_cons.mp hmem with h3 | h4
          · exact hd h3.symm
          · refine ih ?_ h4
            rw [hr]; exact List.mem_cons_self g gs
        · refine ih ?_
          rw [hr]; exact List.mem_cons_of_mem g h2

theorem splitChar_cover {sep : Char} {l : List Char} {c : Char} (hc : c ∈ l) :
    c = sep ∨ ∃ p ∈ splitChar sep l, c ∈ p := by
  induction l with
  | nil => cases hc
  | cons d rest ih =>
    rcases List.mem_cons.mp hc with h1 | h2
    · subst h1
      by_cases hd : c = sep
      · exact Or.inl hd
      · right
        simp only [splitChar, if_neg hd]
        cases hr : splitChar sep rest with
        | nil => exact absurd hr (splitChar_ne_nil sep rest)
        | cons g gs =>
          exact ⟨c :: g, List.mem_cons_self _ _, List.mem_cons_self _ _⟩
    · rcases ih h2 with h | ⟨p, hp, hcp⟩
      · exact Or.inl h
      · right
        simp only [splitChar]
        by_cases hd : d = sep
        · rw [if_pos hd]
          exact ⟨p, List.mem_cons_of_mem _ hp, hcp⟩
        · rw [if_neg hd]
          cases hr : splitChar sep rest with
          | nil => exact absurd hr (splitChar_ne_nil sep rest)
          | cons g gs =>
            rw [hr] at hp
            rcases List.mem_cons.mp hp with h3 | h4
            · subst h3
              exact ⟨d :: p, List.mem_cons_self _ _, List.mem_cons_of_mem _ hcp⟩
            · exact ⟨p, List.mem_cons_of_mem _ h4, hcp⟩

theorem jsTrim_eq_nil_iff {l : List Char} :
    jsTrim l = [] ↔ ∀ c ∈ l, isWsChar c = true := by
  unfold jsTrim
  constructor
  · intro h c hc
    rw [List.reverse_eq_nil_iff, List.dropWhile_eq_nil_iff] at h
    have hsplit : c ∈ List.takeWhile isWsChar l ++ List.dropWhile isWsChar l := by
      rw [List.takeWhile_append_dropWhile]; exact hc
    rcases List.mem_append.mp hsplit with h1 | h2
    · exact List.mem_takeWhile_imp h1
    · exact h c (List.mem_reverse.mpr h2)
  · intro h
    have h1 : List.dropWhile isWsChar l = [] :=
      List.dropWhile_eq_nil_iff.mpr h
    rw [h1]
    rfl

theorem dishesOf_eq_nil_iff {m : List Char} : dishesOf m = [] ↔ jsTrim m = [] := by
  rw [jsTrim_eq_nil_iff]
  unfold dishesOf
  rw [List.filter_eq_nil_iff]
  constructor
  · intro h c hc
    rcases @splitChar_cover '\n' m c hc with h1 | ⟨p, hp, hcp⟩
    · subst h1; rfl
    · have hmem := h (jsTrim p) (List.mem_map_of_mem jsTrim hp)
      have hnil : jsTrim p = [] := by simpa using hmem
      exact (jsTrim_eq_nil_iff.mp hnil) c hcp
  · intro h x hx
    rcases List.mem_map.mp hx with ⟨p, hp, rfl⟩
    have hall : ∀ c ∈ p, isWsChar c = true :=
      fun c hc => h c (mem_of_mem_splitChar hp hc)
    simp [jsTrim_eq_nil_iff.mpr hall]

theorem generationResults_dishNames (client : GenClient) (style : ImageStyle)
    (i : Nat) (ds : List (List Char)) :
    ((generationResults client style i ds).filterMap id).map GeneratedImage.dishName
      = ds.filter (genOk client style) := by
  induction ds generalizing i with
  | nil => rfl
  | cons d rest ih =>
    cases h : generateFoodImage client d style with
    | ok b =>
      have hg : genOk client style d = true := by simp [genOk, h]
      simp [generationResults, h, List.filter_cons, hg, mkGeneratedImage, ih]
    | error e =>
      have hg : genOk client style d = false := by simp [genOk, h]
      simp [generationResults, h, List.filter_cons, hg, ih]

theorem mem_generationResults {client : GenClient} {style : ImageStyle}
    {i : Nat} {ds : List (List Char)} {g : GeneratedImage}
    (hg : g ∈ (generationResults client style i ds).filterMap id) :
    ∃ b, generateFoodImage client g.dishName style = .ok b
      ∧ g.imageUrl = jpegDataUri b
      ∧ g.originalPrompt = g.dishName
      ∧ g.editHistory = []
      ∧ i ≤ g.id ∧ g.id < i + ds.length
      ∧ g.dishName ∈ ds := by
  induction ds generalizing i with
  | nil => simp [generationResults] at hg
  | cons d rest ih =>
    cases h : generateFoodImage client d style with
    | ok b =>
      simp only [generationResults, h, List.filterMap_cons] at hg
      rcases List.mem_cons.mp hg with h1 | h2
      · subst h1
        refine ⟨b, ?_, rfl, rfl, rfl, le_refl _, ?_, ?_⟩
        · simpa [mkGeneratedImage] using h
        · simp [mkGeneratedImage]
        · simp [mkGeneratedImage]
      · obtain ⟨b', hb', hurl, horig, hhist, hle, hlt, hmm⟩ := ih h2
        exact ⟨b', hb', hurl, horig, hhist, by omega, by simp; omega,
          List.mem_cons_of_mem _ hmm⟩
    | error e =>
      simp only [generationResults, h, List.filterMap_cons] at hg
      obtain ⟨b', hb', hurl, horig, hhist, hle, hlt, hmm⟩ := ih hg
      exact ⟨b', hb', hurl, horig, hhist, by omega, by simp; omega,
        List.mem_cons_of_mem _ hmm⟩

theorem generationResults_ids_pairwise (client : GenClient) (style : ImageStyle)
    (i : Nat) (ds : List (List Char)) :
    ((generationResults client style i ds).filterMap id).Pairwise
      (fun a b => a.id < b.id) := by
  induction ds generalizing i with
  | nil => simp [generationResults]
  | cons d rest ih =>
    cases h : generateFoodImage client d style with
    | ok b =>
      simp only [generationResults, h, List.filterMap_cons]
      refine List.Pairwise.cons ?_ (ih (i + 1))
      intro a ha
      obtain ⟨_, _, _, _, _, hle, _, _⟩ := mem_generationResults ha
      simp only [mkGeneratedImage]
      omega
    | error e =>
      simp only [generationResults, h, List.filterMap_cons]
      exact ih (i + 1)

theorem generationErrorEvents_eq (client : GenClient) (style : ImageStyle)
    (ds : List (List Char)) :
    generationErrorEvents client style ds
      = (ds.filter (fun d => !(genOk client style d))).map genErrorMsg := by
  induction ds with
  | nil => rfl
  | cons d rest ih =>
    cases h : generateFoodImage client d style with
    | ok b =>
      have hg : genOk client style d = true := by simp [genOk, h]
      simp [generationErrorEvents, List.filterMap_cons, h, List.filter_cons, hg,
        ih, generationErrorEvents] at ih ⊢
      exact ih
    | error e =>
      have hg : genOk client style d = false := by simp [genOk, h]
      simp [generationErrorEvents, List.filterMap_cons, h, List.filter_cons, hg] at ih ⊢
      exact ih

theorem isBase64Char_ne_comma {c : Char} (h : isBase64Char c = true) : c ≠ ',' := by
  rintro rfl
  revert h
  decide

theorem isBase64Char_ne_semi {c : Char} (h : isBase64Char c = true) : c ≠ ';' := by
  rintro rfl
  revert h
  decide

theorem encodeToDataUri_shape_comma (p m : List Char) :
    encodeToDataUri p m
      = (("data:").toList ++ m ++ (";base64").toList) ++ ',' :: p := by
  have h1 : (";base64,").toList = (";base64").toList ++ [','] := rfl
  simp [encodeToDataUri, h1, List.append_assoc]

theorem encodeToDataUri_shape_semi (p m : List Char) :
    encodeToDataUri p m
      = (("data:").toList ++ m) ++ ';' :: (("base64,").toList ++ p) := by
  have h1 : (";base64,").toList = ';' :: ("base64,").toList := rfl
  simp [encodeToDataUri, h1, List.append_assoc]

theorem dataColon_split (m : List Char) (hm : (':') ∉ m) :
    splitChar ':' (("data:").toList ++ m) = [("data").toList, m] := by
  have h1 : ("data:").toList ++ m = ("data").toList ++ ':' :: m := by
    have : ("data:").toList = ("data").toList ++ [':'] := rfl
    simp [this, List.append_assoc]
  rw [h1, splitChar_append (by decide), splitChar_of_not_mem hm]

theorem splitChar_comma_encode {p m : List Char}
    (hp : (',') ∉ p) (hm : (',') ∉ m) :
    splitChar ',' (encodeToDataUri p m)
      = [("data:").toList ++ m ++ (";base64").toList, p] := by
  have hA : (',') ∉ (("data:").toList ++ m ++ (";base64").toList) := by
    intro hc
    rcases List.mem_append.mp hc with hc1 | hc2
    · rcases List.mem_append.mp hc1 with hc3 | hc4
      · revert hc3; decide
      · exact hm hc4
    · revert hc2; decide
  rw [encodeToDataUri_shape_comma, splitChar_append hA, splitChar_of_not_mem hp]

theorem splitChar_semi_encode_headI {p m : List Char} (hm : (';') ∉ m) :
    (splitChar ';' (encodeToDataUri p m)).headI = ("data:").toList ++ m := by
  have hB : (';') ∉ (("data:").toList ++ m) := by
    intro hc
    rcases List.mem_append.mp hc with hc1 | hc2
    · revert hc1; decide
    · exact hm hc2
  rw [encodeToDataUri_shape_semi p m, splitChar_append hB]
  rfl

theorem mimeOfDataUri_encode {m : List Char} (hms : (';') ∉ m) (hmc : (':') ∉ m)
    (p : List Char) :
    mimeOfDataUri (encodeToDataUri p m) = some m := by
  unfold mimeOfDataUri
  rw [splitChar_semi_encode_headI hms, dataColon_split m hmc]
  rfl

theorem mimeOfDataUri_jpeg (b : List Char) :
    mimeOfDataUri (jpegDataUri b) = some (("image/jpeg").toList) := by
  have h : jpegDataUri b = encodeToDataUri b (("image/jpeg").toList) := by
    simp [jpegDataUri, encodeToDataUri]
  rw [h, mimeOfDataUri_encode (by decide) (by decide)]

theorem decodeFromDataUri_encodeToDataUri {p m : List Char}
    (hp : validPayload p) (hm : validMediaType m) :
    decodeFromDataUri (encodeToDataUri p m) = some (p, m) := by
  obtain ⟨hpne, hpb⟩ := hp
  obtain ⟨hmne, hmco, hms, hmc⟩ := hm
  have hpc : (',') ∉ p := fun hc => isBase64Char_ne_comma (hpb _ hc) rfl
  unfold decodeFromDataUri
  rw [splitChar_comma_encode hpc hmco, splitChar_semi_encode_headI hms,
    dataColon_split m hmc]
  simp [hpne, hmne]

theorem decodeFromDataUri_props {uri d m : List Char}
    (h : decodeFromDataUri uri = some (d, m)) :
    d ≠ [] ∧ m ≠ [] ∧ (':') ∉ m ∧ (';') ∉ m
      ∧ mimeOfDataUri uri = some m := by
  unfold decodeFromDataUri at h
  cases h1 : (splitChar ',' uri).get? 1 with
  | none => rw [h1] at h; cases h
  | some d' =>
    cases h2 : (splitChar ':' ((splitChar ';' uri).headI)).get? 1 with
    | none => rw [h1, h2] at h; cases h
    | some m' =>
      rw [h1, h2] at h
      dsimp only at h
      by_cases hnil : d' = [] ∨ m' = []
      · rw [if_pos hnil] at h; cases h
      · rw [if_neg hnil] at h
        injection h with h3
        have hd : d' = d := congrArg Prod.fst h3
        have hmm : m' = m := congrArg Prod.snd h3
        push_neg at hnil
        have hmem : m' ∈ splitChar ':' ((splitChar ';' uri).headI) := by
          rcases List.get?_eq_some.mp h2 with ⟨hlt, hget⟩
          exact hget ▸ List.get_mem _ 1 hlt
        have hcolon : (':') ∉ m' := not_sep_of_mem_splitChar hmem
        have hsemi : (';') ∉ m' := by
          intro hc
          have hmemg : (splitChar ';' uri).headI ∈ splitChar ';' uri :=
            headI_mem_of_ne_nil (splitChar_ne_nil ';' uri)
          exact not_sep_of_mem_splitChar hmemg
            (mem_of_mem_splitChar hmem hc)
        rw [← hd, ← hmm]
        exact ⟨hnil.1, hnil.2, hcolon, hsemi, h2⟩

theorem handleEdit_updated_cases (client : EditClient) (image : GeneratedImage)
    (curUrl prompt : List Char) :
    (handleEdit client image curUrl prompt).updated = none
    ∨ ∃ bd mt edited, decodeFromDataUri curUrl = some (bd, mt)
        ∧ editFoodImage client bd mt prompt = .ok edited
        ∧ (handleEdit client image curUrl prompt).updated
            = some { image with
                     imageUrl := encodeToDataUri edited mt
                     editHistory := image.editHistory
                       ++ [⟨prompt, encodeToDataUri edited mt⟩] } := by
  unfold handleEdit
  by_cases h1 : jsTrim prompt = []
  · rw [if_pos h1]; left; rfl
  · rw [if_neg h1]
    cases h2 : decodeFromDataUri curUrl with
    | none => left; rfl
    | some pr =>
      obtain ⟨bd, mt⟩ := pr
      dsimp only
      cases h3 : editFoodImage client bd mt prompt with
      | ok edited => right; exact ⟨bd, mt, edited, rfl, h3, rfl⟩
      | error e => left; rfl

/-- Claim C8: for every menu text that is empty or all-whitespace (its
trim is empty, equivalently no line trims non-empty), `handleGenerateImages`
trips the guard: it reports the empty-menu error, issues zero Generation
Client calls, and builds no session. -/
theorem handleGenerateImages_emptyInput (client : GenClient) (style : ImageStyle)
    (firstId : Nat) (menuText : List Char) (h : jsTrim menuText = []) :
    (handleGenerateImages client menuText style firstId).calls = []
    ∧ (handleGenerateImages client menuText style firstId).finalError = some emptyMenuMsg
    ∧ (handleGenerateImages client menuText style firstId).sessionUpdate = none
    ∧ dishesOf menuText = [] := by
  refine ⟨?_, ?_, ?_, dishesOf_eq_nil_iff.mpr h⟩ <;> simp [handleGenerateImages, h]

theorem handleGenerateImages_emptyInput_witness :
    jsTrim (("  \n\t ").toList) = []
    ∧ (handleGenerateImages okGenClient (("  \n\t ").toList) ImageStyle.RUSTIC_DARK 0).calls = []
    ∧ (handleGenerateImages okGenClient (("  \n\t ").toList) ImageStyle.RUSTIC_DARK 0).sessionUpdate = none := by
  have h := handleGenerateImages_emptyInput okGenClient ImageStyle.RUSTIC_DARK 0
    (("  \n\t ").toList) (by decide)
  exact ⟨by decide, h.1, h.2.2.1⟩

/-- Claim C9: for every tracked image and every edit prompt that trims to
empty, `handleEdit` trips the guard: it reports the empty-prompt error,
issues zero Edit Client calls, produces no update, and leaves the session
and the displayed image untouched. -/
theorem handleEdit_emptyPrompt (client : EditClient) (image : GeneratedImage)
    (curUrl prompt : List Char) (h : jsTrim prompt = []) :
    (handleEdit client image curUrl prompt).calls = []
    ∧ (handleEdit client image curUrl prompt).error = some emptyEditPromptMsg
    ∧ (handleEdit client image curUrl prompt).updated = none
    ∧ (handleEdit client image curUrl prompt).newCurrentUrl = curUrl
    ∧ ∀ session, applyEditOutcome session (handleEdit client image curUrl prompt) = session := by
  refine ⟨?_, ?_, ?_, ?_, ?_⟩ <;> simp [handleEdit, h, applyEditOutcome]

theorem handleEdit_emptyPrompt_witness :
    jsTrim ((" \t ").toList) = []
    ∧ (handleEdit okEditClient sampleImage sampleImage.imageUrl ((" \t ").toList)).calls = []
    ∧ (handleEdit okEditClient sampleImage sampleImage.imageUrl ((" \t ").toList)).updated = none := by
  have h := handleEdit_emptyPrompt okEditClient sampleImage sampleImage.imageUrl
    ((" \t ").toList) (by decide)
  exact ⟨by decide, h.1, h.2.2.1⟩

/-- Claim C5: for every menu text and style, batch generation issues exactly
one Generation Client call per trimmed non-empty menu line, in order, each
call's prompt being the style's fixed prefix template prepended to the dish
text and each call carrying the style's fixed aspect-ratio hint
(rustic/dark 4:3, bright/modern 16:9, social-media top-down 1:1). -/
theorem handleGenerateImages_calls (client : GenClient) (menuText : List Char)
    (style : ImageStyle) (firstId : Nat) :
    (handleGenerateImages client menuText style firstId).calls
        = (dishesOf menuText).map (fun d => (fullPromptFor style d, aspectFor style))
    ∧ (handleGenerateImages client menuText style firstId).calls.length
        = (dishesOf menuText).length
    ∧ (∀ d, fullPromptFor .RUSTIC_DARK d
        = ("High-end, professional food photography, rustic, dark lighting, moody, close-up, ").toList ++ d)
    ∧ (∀ d, fullPromptFor .BRIGHT_MODERN d
        = ("High-end, professional food photography, bright, modern, clean background, vibrant colors, ").toList ++ d)
    ∧ (∀ d, fullPromptFor .SOCIAL_MEDIA d
        = ("High-end, professional food photography, top-down view, social media ready, bright, clean, well-lit, ").toList ++ d)
    ∧ aspectFor .RUSTIC_DARK = .r4x3
    ∧ aspectFor .BRIGHT_MODERN = .r16x9
    ∧ aspectFor .SOCIAL_MEDIA = .r1x1 := by
  have hcalls : (handleGenerateImages client menuText style firstId).calls
      = (dishesOf menuText).map (fun d => (fullPromptFor style d, aspectFor style)) := by
    by_cases h : jsTrim menuText = []
    · have hd : dishesOf menuText = [] := dishesOf_eq_nil_iff.mpr h
      simp [handleGenerateImages, h, hd]
    · simp [handleGenerateImages, h]
  exact ⟨hcalls, by rw [hcalls]; simp, fun d => rfl, fun d => rfl, fun d => rfl,
    rfl, rfl, rfl⟩

/-- Claim C6: for every valid payload (nonempty base64 body) and valid media
type (nonempty, free of the data-URI delimiters), decoding the data URI
produced by encoding returns exactly the original pair. -/
theorem roundTrip_decode_encode (p m : List Char)
    (hp : validPayload p) (hm : validMediaType m) :
    decodeFromDataUri (encodeToDataUri p m) = some (p, m) :=
  decodeFromDataUri_encodeToDataUri hp hm

theorem roundTrip_decode_encode_witness :
    validPayload (("QUJD").toList) ∧ validMediaType (("image/png").toList)
    ∧ decodeFromDataUri (encodeToDataUri (("QUJD").toList) (("image/png").toList))
        = some ((("QUJD").toList), (("image/png").toList)) :=
  ⟨by constructor <;> decide, by refine ⟨?_, ?_, ?_, ?_⟩ <;> decide,
    roundTrip_decode_encode _ _ (by constructor <;> decide)
      (by refine ⟨?_, ?_, ?_, ?_⟩ <;> decide)⟩

/-- Claim C1: for every menu text with generation content, the new session
consists of exactly the successful results in input (menu-line) order —
`Promise.all` keeps index order, never resolution order — each entry being a
new record with a fresh unique id, label (`dishName`) equal to the dish
text, empty `editHistory` and `imageUrl` carrying the returned image; the
new session replaces any prior session wholesale, even when empty. -/
theorem handleGenerateImages_session (client : GenClient) (menuText : List Char)
    (style : ImageStyle) (firstId : Nat) (h : jsTrim menuText ≠ []) :
    (handleGenerateImages client menuText style firstId).sessionUpdate
        = some (sessionOf (handleGenerateImages client menuText style firstId))
    ∧ (∀ prior, applyGenOutcome prior (handleGenerateImages client menuText style firstId)
        = sessionOf (handleGenerateImages client menuText style firstId))
    ∧ (sessionOf (handleGenerateImages client menuText style firstId)).map
          GeneratedImage.dishName
        = (dishesOf menuText).filter (genOk client style)
    ∧ (∀ g ∈ sessionOf (handleGenerateImages client menuText style firstId),
        ∃ b, generateFoodImage client g.dishName style = .ok b
          ∧ g.imageUrl = jpegDataUri b
          ∧ g.originalPrompt = g.dishName
          ∧ g.editHistory = []
          ∧ firstId ≤ g.id
          ∧ g.dishName ∈ dishesOf menuText)
    ∧ ((sessionOf (handleGenerateImages client menuText style firstId)).map
          GeneratedImage.id).Pairwise (· < ·)
    ∧ ((sessionOf (handleGenerateImages client menuText style firstId)).map
          GeneratedImage.id).Nodup := by
  have hs : sessionOf (handleGenerateImages client menuText style firstId)
      = (generationResults client style firstId (dishesOf menuText)).filterMap id := by
    simp [handleGenerateImages, h, sessionOf]
  have hupd : (handleGenerateImages client menuText style firstId).sessionUpdate
      = some ((generationResults client style firstId (dishesOf menuText)).filterMap id) := by
    simp [handleGenerateImages, h]
  have hpw : ((generationResults client style firstId (dishesOf menuText)).filterMap
      id).Pairwise (fun a b => a.id < b.id) :=
    generationResults_ids_pairwise client style firstId (dishesOf menuText)
  refine ⟨?_, ?_, ?_, ?_, ?_, ?_⟩
  · rw [hupd, hs]
  · intro prior
    simp [applyGenOutcome, hupd, hs]
  · rw [hs]
    exact generationResults_dishNames client style firstId (dishesOf menuText)
  · rw [hs]
    intro g hg
    obtain ⟨b, hb, hurl, horig, hhist, hle, _, hmem⟩ := mem_generationResults hg
    exact ⟨b, hb, hurl, horig, hhist, hle, hmem⟩
  · rw [hs]
    exact List.pairwise_map.mpr hpw
  · rw [hs]
    exact (List.pairwise_map.mpr hpw).imp (fun hlt => Nat.ne_of_lt hlt)

theorem handleGenerateImages_session_witness :
    jsTrim (("a\nqqq\nb").toList) ≠ []
    ∧ (sessionOf (handleGenerateImages failQqqGenClient (("a\nqqq\nb").toList)
          ImageStyle.BRIGHT_MODERN 5)).map GeneratedImage.dishName
        = (dishesOf (("a\nqqq\nb").toList)).filter
            (genOk failQqqGenClient ImageStyle.BRIGHT_MODERN) := by
  have h := handleGenerateImages_session failQqqGenClient (("a\nqqq\nb").toList)
    ImageStyle.BRIGHT_MODERN 5 (by decide)
  exact ⟨by decide, h.2.2.1⟩

/-- Claim C3 counterexample: with the two dishes `zzz` and `qqq` both
failing, the code's error report — the single `error` string state — holds
exactly one message at the end, not one entry per failed dish, and no
reported entry names the dish `zzz`. -/
theorem reportedErrors_single_cex :
    (dishesOf (("zzz\nqqq").toList)).length = 2
    ∧ (∀ d ∈ dishesOf (("zzz\nqqq").toList),
        genOk failAllGenClient ImageStyle.BRIGHT_MODERN d = false)
    ∧ (reportedErrors (handleGenerateImages failAllGenClient (("zzz\nqqq").toList)
        ImageStyle.BRIGHT_MODERN 0)).length = 1
    ∧ ¬ ∃ e ∈ reportedErrors (handleGenerateImages failAllGenClient
        (("zzz\nqqq").toList) ImageStyle.BRIGHT_MODERN 0),
        e = genErrorMsg (("zzz").toList) := by
  decide

/-- Claim C3 (amended): each failing dish produces its own `setError` event
naming that dish, one dish's failure never aborts the batch (the session
still collects every success, in order), but the observable error report is
the single last-written message, not a list with one entry per failed
dish. -/
theorem batch_failure_reporting (client : GenClient) (menuText : List Char)
    (style : ImageStyle) (firstId : Nat) (h : jsTrim menuText ≠ []) :
    (handleGenerateImages client menuText style firstId).errorEvents
        = ((dishesOf menuText).filter (fun d => !(genOk client style d))).map genErrorMsg
    ∧ (handleGenerateImages client menuText style firstId).errorEvents.length
        = ((dishesOf menuText).filter (fun d => !(genOk client style d))).length
    ∧ (handleGenerateImages client menuText style firstId).finalError
        = (handleGenerateImages client menuText style firstId).errorEvents.getLast?
    ∧ reportedErrors (handleGenerateImages client menuText style firstId)
        = ((handleGenerateImages client menuText style firstId).errorEvents.getLast?).toList
    ∧ (sessionOf (handleGenerateImages client menuText style firstId)).map
          GeneratedImage.dishName
        = (dishesOf menuText).filter (genOk client style) := by
  have hev : (handleGenerateImages client menuText style firstId).errorEvents
      = generationErrorEvents client style (dishesOf menuText) := by
    simp [handleGenerateImages, h]
  have hfe : (handleGenerateImages client menuText style firstId).finalError
      = (generationErrorEvents client style (dishesOf menuText)).getLast? := by
    simp [handleGenerateImages, h]
  have hs : sessionOf (handleGenerateImages client menuText style firstId)
      = (generationResults client style firstId (dishesOf menuText)).filterMap id := by
    simp [handleGenerateImages, h, sessionOf]
  refine ⟨?_, ?_, ?_, ?_, ?_⟩
  · rw [hev, generationErrorEvents_eq]
  · rw [hev, generationErrorEvents_eq]
    simp
  · rw [hfe, hev]
  · simp [reportedErrors, hfe, hev]
  · rw [hs]
    exact generationResults_dishNames client style firstId (dishesOf menuText)

theorem batch_failure_reporting_witness :
    jsTrim (("a\nqqq\nb").toList) ≠ []
    ∧ (handleGenerateImages failQqqGenClient (("a\nqqq\nb").toList)
          ImageStyle.BRIGHT_MODERN 0).errorEvents
        = ((dishesOf (("a\nqqq\nb").toList)).filter
            (fun d => !(genOk failQqqGenClient ImageStyle.BRIGHT_MODERN d))).map genErrorMsg
    ∧ (sessionOf (handleGenerateImages failQqqGenClient (("a\nqqq\nb").toList)
          ImageStyle.BRIGHT_MODERN 0)).length = 2
    ∧ (handleGenerateImages failQqqGenClient (("a\nqqq\nb").toList)
          ImageStyle.BRIGHT_MODERN 0).errorEvents = [genErrorMsg (("qqq").toList)] := by
  have h := batch_failure_reporting failQqqGenClient (("a\nqqq\nb").toList)
    ImageStyle.BRIGHT_MODERN 0 (by decide)
  exact ⟨by decide, h.1, by decide, by decide⟩

/-- Claim C2: on Edit Client success, `handleEdit` produces a new record
identical to the input except `imageUrl` is the newly encoded result and
`editHistory` gets exactly one entry `{prompt, resultPayload}` appended at
the end; `id`, `dishName`, `originalPrompt` carry over unchanged, so the
new `imageUrl` equals the last history entry's payload, and a following
edit starts from the previous result as its input payload. -/
theorem handleEdit_success (client : EditClient) (image : GeneratedImage)
    (curUrl prompt bd mt edited : List Char)
    (hprompt : jsTrim prompt ≠ [])
    (hdec : decodeFromDataUri curUrl = some (bd, mt))
    (hok : editFoodImage client bd mt prompt = .ok edited) :
    (handleEdit client image curUrl prompt).updated
        = some { image with
                 imageUrl := encodeToDataUri edited mt
                 editHistory := image.editHistory ++ [⟨prompt, encodeToDataUri edited mt⟩] }
    ∧ (handleEdit client image curUrl prompt).calls = [(bd, mt, prompt)]
    ∧ (handleEdit client image curUrl prompt).error = none
    ∧ (handleEdit client image curUrl prompt).newCurrentUrl = encodeToDataUri edited mt
    ∧ (∀ u ∈ (handleEdit client image curUrl prompt).updated,
        u.id = image.id ∧ u.dishName = image.dishName
        ∧ u.originalPrompt = image.originalPrompt
        ∧ u.imageUrl = encodeToDataUri edited mt
        ∧ u.editHistory = image.editHistory ++ [⟨prompt, u.imageUrl⟩]
        ∧ u.editHistory.getLast? = some ⟨prompt, u.imageUrl⟩)
    ∧ (∀ (client2 : EditClient) (prompt2 : List Char),
        validPayload edited → (',') ∉ mt →
        (handleEdit client2
            { image with
              imageUrl := encodeToDataUri edited mt
              editHistory := image.editHistory ++ [⟨prompt, encodeToDataUri edited mt⟩] }
            (encodeToDataUri edited mt) prompt2).calls
          = if jsTrim prompt2 = [] then [] else [(edited, mt, prompt2)]) := by
  have hmain : handleEdit client image curUrl prompt
      = { calls := [(bd, mt, prompt)]
          error := none
          updated := some { image with
            imageUrl := encodeToDataUri edited mt
            editHistory := image.editHistory ++ [⟨prompt, encodeToDataUri edited mt⟩] }
          newCurrentUrl := encodeToDataUri edited mt } := by
    unfold handleEdit
    rw [if_neg hprompt, hdec]
    dsimp only
    rw [hok]
  refine ⟨by rw [hmain], by rw [hmain], by rw [hmain], by rw [hmain], ?_, ?_⟩
  · intro u hu
    rw [hmain] at hu
    simp only [Option.mem_def, Option.some.injEq] at hu
    subst hu
    refine ⟨rfl, rfl, rfl, rfl, rfl, ?_⟩
    simp
  · intro client2 prompt2 hvp hcm
    obtain ⟨_, hmne, hcolon, hsemi, _⟩ := decodeFromDataUri_props hdec
    have hvm : validMediaType mt := ⟨hmne, hcm, hsemi, hcolon⟩
    have hdec2 : decodeFromDataUri (encodeToDataUri edited mt) = some (edited, mt) :=
      decodeFromDataUri_encodeToDataUri hvp hvm
    by_cases h2 : jsTrim prompt2 = []
    · rw [if_pos h2]
      simp [handleEdit, h2]
    · rw [if_neg h2]
      unfold handleEdit
      rw [if_neg h2, hdec2]
      dsimp only
      cases h3 : editFoodImage client2 edited mt prompt2 <;> rfl

theorem handleEdit_success_witness :
    jsTrim (("x").toList) ≠ []
    ∧ decodeFromDataUri sampleImage.imageUrl
        = some ((("QUJD").toList), (("image/jpeg").toList))
    ∧ editFoodImage okEditClient (("QUJD").toList) (("image/jpeg").toList) (("x").toList)
        = .ok (("EDITED").toList)
    ∧ (handleEdit okEditClient sampleImage sampleImage.imageUrl (("x").toList)).updated
        = some { sampleImage with
                 imageUrl := encodeToDataUri (("EDITED").toList) (("image/jpeg").toList)
                 editHistory := sampleImage.editHistory
                   ++ [⟨(("x").toList), encodeToDataUri (("EDITED").toList) (("image/jpeg").toList)⟩] } := by
  have h := handleEdit_success okEditClient sampleImage sampleImage.imageUrl
    (("x").toList) (("QUJD").toList) (("image/jpeg").toList) (("EDITED").toList)
    (by decide) (by decide) (by rfl)
  exact ⟨by decide, by decide, by rfl, h.1⟩

/-- Claim C4: when the Edit Client fails — a service error or a response
with no usable image part — `handleEdit` reports the failure message with
the reason, produces no update, keeps the displayed URL, and the session
(and hence the tracked image the caller observes, with its `editHistory`
length) is exactly what it was before the call. -/
theorem handleEdit_failure (client : EditClient) (image : GeneratedImage)
    (curUrl prompt bd mt reason : List Char)
    (hprompt : jsTrim prompt ≠ [])
    (hdec : decodeFromDataUri curUrl = some (bd, mt))
    (hfail : editFoodImage client bd mt prompt = .error reason) :
    (handleEdit client image curUrl prompt).error = some (editFailMsg reason)
    ∧ (handleEdit client image curUrl prompt).updated = none
    ∧ (handleEdit client image curUrl prompt).newCurrentUrl = curUrl
    ∧ (handleEdit client image curUrl prompt).calls = [(bd, mt, prompt)]
    ∧ (∀ session, applyEditOutcome session (handleEdit client image curUrl prompt)
        = session) := by
  have hmain : handleEdit client image curUrl prompt
      = { calls := [(bd, mt, prompt)]
          error := some (editFailMsg reason)
          updated := none
          newCurrentUrl := curUrl } := by
    unfold handleEdit
    rw [if_neg hprompt, hdec]
    dsimp only
    rw [hfail]
  refine ⟨by rw [hmain], by rw [hmain], by rw [hmain], by rw [hmain], ?_⟩
  intro session
  rw [hmain]
  rfl

theorem handleEdit_failure_witness :
    jsTrim (("x").toList) ≠ []
    ∧ editFoodImage noImageEditClient (("QUJD").toList) (("image/jpeg").toList)
        (("x").toList) = .error (editFailMsg noEditedImageMsg)
    ∧ (handleEdit noImageEditClient sampleImage sampleImage.imageUrl (("x").toList)).updated
        = none
    ∧ (handleEdit noImageEditClient sampleImage sampleImage.imageUrl (("x").toList)).error
        = some (editFailMsg (editFailMsg noEditedImageMsg)) := by
  have h := handleEdit_failure noImageEditClient sampleImage sampleImage.imageUrl
    (("x").toList) (("QUJD").toList) (("image/jpeg").toList)
    (editFailMsg noEditedImageMsg) (by decide) (by decide) (by rfl)
  exact ⟨by decide, by rfl, h.2.1, h.1⟩

/-- Claim C7: every tracked image built by batch generation has
`originalPrompt` equal to the dish text that was the prompt argument of its
generation call (its `dishName`), and the edit operation — the only
operation producing updated images — never changes `originalPrompt`. -/
theorem originalPrompt_immutable (client : GenClient) (menuText : List Char)
    (style : ImageStyle) (firstId : Nat) :
    (∀ g ∈ sessionOf (handleGenerateImages client menuText style firstId),
        g.originalPrompt = g.dishName
        ∧ g.dishName ∈ dishesOf menuText
        ∧ ∃ b, generateFoodImage client g.originalPrompt style = .ok b
            ∧ g.imageUrl = jpegDataUri b)
    ∧ (∀ (eclient : EditClient) (img : GeneratedImage) (curUrl prompt : List Char),
        ∀ u ∈ (handleEdit eclient img curUrl prompt).updated,
          u.originalPrompt = img.originalPrompt) := by
  constructor
  · intro g hg
    by_cases h : jsTrim menuText = []
    · exfalso
      revert hg
      simp [handleGenerateImages, h, sessionOf]
    · have hs : sessionOf (handleGenerateImages client menuText style firstId)
          = (generationResults client style firstId (dishesOf menuText)).filterMap id := by
        simp [handleGenerateImages, h, sessionOf]
      rw [hs] at hg
      obtain ⟨b, hb, hurl, horig, _, _, _, hmem⟩ := mem_generationResults hg
      exact ⟨horig, hmem, b, by rw [horig]; exact hb, hurl⟩
  · intro eclient img curUrl prompt u hu
    rcases handleEdit_updated_cases eclient img curUrl prompt with
      hnone | ⟨bd, mt, edited, _, _, hupd⟩
    · rw [hnone] at hu
      simp at hu
    · rw [hupd] at hu
      simp only [Option.mem_def, Option.some.injEq] at hu
      subst hu
      rfl

theorem originalPrompt_immutable_witness :
    (mkGeneratedImage 3 (("zzz").toList) (("IMG").toList)).originalPrompt
        = (mkGeneratedImage 3 (("zzz").toList) (("IMG").toList)).dishName
    ∧ (mkGeneratedImage 3 (("zzz").toList) (("IMG").toList)).dishName
        ∈ dishesOf (("zzz").toList) := by
  have h := (originalPrompt_immutable okGenClient (("zzz").toList)
    ImageStyle.BRIGHT_MODERN 3).1
    (mkGeneratedImage 3 (("zzz").toList) (("IMG").toList)) (by decide)
  exact ⟨h.1, h.2.1⟩

/-- Claim C10: the media-type header of a tracked image's data URI never
changes: batch generation hardcodes `image/jpeg` whatever the service
returned, and a successful edit re-encodes with the media type extracted
from the input data URI, discarding the media type of the part the Edit
Client actually returned. -/
theorem mediaType_invariant (client : GenClient) (menuText : List Char)
    (style : ImageStyle) (firstId : Nat)
    (eclient : EditClient) (image : GeneratedImage) (curUrl prompt : List Char) :
    (∀ g ∈ sessionOf (handleGenerateImages client menuText style firstId),
        mimeOfDataUri g.imageUrl = some (("image/jpeg").toList))
    ∧ (∀ u ∈ (handleEdit eclient image curUrl prompt).updated,
        mimeOfDataUri u.imageUrl = mimeOfDataUri curUrl) := by
  constructor
  · intro g hg
    by_cases h : jsTrim menuText = []
    · exfalso
      revert hg
      simp [handleGenerateImages, h, sessionOf]
    · have hs : sessionOf (handleGenerateImages client menuText style firstId)
          = (generationResults client style firstId (dishesOf menuText)).filterMap id := by
        simp [handleGenerateImages, h, sessionOf]
      rw [hs] at hg
      obtain ⟨b, _, hurl, _, _, _, _, _⟩ := mem_generationResults hg
      rw [hurl, mimeOfDataUri_jpeg]
  · intro u hu
    rcases handleEdit_updated_cases eclient image curUrl prompt with
      hnone | ⟨bd, mt, edited, hdec, _, hupd⟩
    · rw [hnone] at hu
      simp at hu
    · rw [hupd] at hu
      simp only [Option.mem_def, Option.some.injEq] at hu
      subst hu
      obtain ⟨_, _, hcolon, hsemi, hmime⟩ := decodeFromDataUri_props hdec
      show mimeOfDataUri (encodeToDataUri edited mt) = _
      rw [mimeOfDataUri_encode hsemi hcolon, hmime]

theorem mediaType_invariant_witness :
    mimeOfDataUri (mkGeneratedImage 0 (("zzz").toList) (("IMG").toList)).imageUrl
        = some (("image/jpeg").toList) := by
  have h := (mediaType_invariant okGenClient (("zzz").toList) ImageStyle.BRIGHT_MODERN 0
    okEditClient sampleImage sampleImage.imageUrl (("x").toList)).1
    (mkGeneratedImage 0 (("zzz").toList) (("IMG").toList)) (by decide)
  exact h
